import Mathlib

/-!
Verification of autokill.

A shallow embedding of `autokill.cpp`: the program enumerates the top-level
windows, keeps those whose title matches a regular expression, waits until a
deadline on the steady clock, terminates the owning processes and reports.

The Win32 services and `std::regex` are external collaborators.  The Win32
side is a record of answers indexed by the number of actions the program has
performed so far, so a window's title (or any other answer) may differ from one
call to the next.  Every action is appended to a time-stamped trace.
-/

namespace Autokill

/-! ## External collaborators -/

/-- Window identifier (Win32 HWND). -/
abbrev HWND := Nat

/-- Process handle (Win32 HANDLE); the null handle is 0. -/
abbrev HANDLE := Nat

/-- Win32 DWORD (process identifiers, error codes). -/
abbrev DWORD := Nat

/-- The part of std::regex the program uses: the constructor, which throws
std::regex_error on an invalid pattern (here: returns none), and
std::regex_search. -/
structure RegexLib (R : Type) where
  compile : String → Option R
  regex_search : String → R → Bool

/-- The Win32 services, the steady clock and the C runtime.  An answer may
depend on the number of actions performed before the call (first argument).
The clock counts ticks; every action lasts `elapse k` ticks, a natural number,
so the clock never runs backwards. -/
structure System where
  /-- What atoi returns when the integer written does not fit an int; the C
  standard leaves the behaviour undefined, so the result is left open. -/
  atoiOutOfRange : Int → Int
  ticksPerSecond : Nat
  start : Nat
  elapse : Nat → Nat
  /-- Windows handed to the callback, and the BOOL result of the call. -/
  EnumWindows : Nat → List HWND × Bool
  /-- Current title text of a window, empty when it has none. -/
  windowText : Nat → HWND → String
  GetWindowThreadProcessId : Nat → HWND → DWORD
  /-- Result of OpenProcess(PROCESS_TERMINATE, 1, pid); 0 on failure. -/
  OpenProcess : Nat → DWORD → HANDLE
  TerminateProcess : Nat → HANDLE → Bool
  GetLastError : Nat → DWORD
  /-- Text FormatMessageA allocates for an error code (empty on failure). -/
  FormatMessageA : Nat → DWORD → String

/-- Actions visible from outside the program, with their arguments and
results. -/
inductive Event where
  | write (s : String)
  | flush
  | now (t : Nat)
  | enumWindows
  | getWindowText (w : HWND) (text : String)
  | getWindowThreadProcessId (w : HWND) (pid : DWORD)
  | openProcess (pid : DWORD) (h : HANDLE)
  | terminateProcess (h : HANDLE) (ok : Bool)
  | closeHandle (h : HANDLE)
  | getLastError (e : DWORD)
  | formatMessage (e : DWORD)
  | localFree
  | sleepUntil (t : Int)
  deriving DecidableEq, Repr

/-- Program-external state: the steady clock, the number of actions performed
and the trace of actions, each stamped with the clock value at which it began. -/
structure World where
  clock : Nat
  step : Nat
  trace : List (Nat × Event)
  deriving DecidableEq, Repr

/-- World at program start. -/
def World.init (sys : System) : World :=
  { clock := sys.start, step := 0, trace := [] }

/-- Perform one action: log it at the current clock value, let the clock
advance by the duration of the action. -/
def World.act (sys : System) (e : Event) (σ : World) : World :=
  { clock := σ.clock + sys.elapse σ.step
    step := σ.step + 1
    trace := σ.trace ++ [(σ.clock, e)] }

/-- The call std::this_thread::sleep_until(t) on the steady clock: returns no
earlier than t and no earlier than the call. -/
def sleep_until (sys : System) (t : Int) (σ : World) : World :=
  { clock := max σ.clock t.toNat + sys.elapse σ.step
    step := σ.step + 1
    trace := σ.trace ++ [(σ.clock, Event.sleepUntil t)] }

/-- The call GetWindowText(window, buf, nMaxCount): copies at most
nMaxCount - 1 characters of the title into the buffer. -/
def GetWindowText (sys : System) (k : Nat) (window : HWND) (nMaxCount : Nat) : List Char :=
  (sys.windowText k window).data.take (nMaxCount - 1)

/-! ## The program -/

/-- Source: getTitle. -/
def getTitle (sys : System) (window : HWND) (σ : World) : Option String × World :=
  let buf := GetWindowText sys σ.step window 256
  let n := buf.length
  let σ1 := σ.act sys (Event.getWindowText window (String.mk buf))
  if n = 0 then (none, σ1) else (some (String.mk buf), σ1)

/-- Source: getProcessHandle. -/
def getProcessHandle (sys : System) (window : HWND) (σ : World) : HANDLE × World :=
  let pid := sys.GetWindowThreadProcessId σ.step window
  let σ1 := σ.act sys (Event.getWindowThreadProcessId window pid)
  let h := sys.OpenProcess σ1.step pid
  (h, σ1.act sys (Event.openProcess pid h))

/-- Source: getLastErrorString. -/
def getLastErrorString (sys : System) (σ : World) : String × World :=
  let error := sys.GetLastError σ.step
  let σ1 := σ.act sys (Event.getLastError error)
  if error = 0 then ("", σ1)
  else
    let message := sys.FormatMessageA σ1.step error
    let σ2 := σ1.act sys (Event.formatMessage error)
    let σ3 := σ2.act sys Event.localFree
    (message, σ3)

/-- Source: context::window_info. -/
structure window_info where
  title : String
  window : HWND
  process : HANDLE
  deriving DecidableEq, Repr

/-- Source: struct context.  The member until is spelled until_ here. -/
structure context (R : Type) where
  pattern : R
  until_ : Int
  windows : List window_info

/-- Source: context::operator(), the visitor run on every enumerated window. -/
def context.call {R : Type} (lib : RegexLib R) (sys : System) (ctx : context R)
    (window : HWND) (σ : World) : context R × World :=
  match getTitle sys window σ with
  | (none, σ1) => (ctx, σ1)
  | (some title, σ1) =>
    match getProcessHandle sys window σ1 with
    | (process, σ2) =>
      if process = 0 then (ctx, σ2)
      else if lib.regex_search title ctx.pattern then
        ({ ctx with windows := ctx.windows ++ [{ title := title, window := window, process := process }] }, σ2)
      else (ctx, σ2)

/-- Source: enumerator, the EnumWindows callback; it always returns 1. -/
def enumerator {R : Type} (lib : RegexLib R) (sys : System) (window : HWND)
    (p : context R × World) : Bool × (context R × World) :=
  (true, p.1.call lib sys window p.2)

/-- The callback loop inside EnumWindows: it goes on while the callback
returns nonzero. -/
def enumLoop {α : Type} (callback : HWND → α → Bool × α) : List HWND → α → Bool × α
  | [], a => (true, a)
  | w :: ws, a =>
    match callback w a with
    | (true, a1) => enumLoop callback ws a1
    | (false, a1) => (false, a1)

/-- The call EnumWindows(callback, lparam). -/
def EnumWindows {R : Type} (sys : System)
    (callback : HWND → context R × World → Bool × (context R × World))
    (ctx : context R) (σ : World) : Bool × (context R × World) :=
  let answer := sys.EnumWindows σ.step
  let σ1 := σ.act sys Event.enumWindows
  match enumLoop callback answer.1 (ctx, σ1) with
  | (went, p) => (went && answer.2, p)

/-- Source: context::wait. -/
def context.wait {R : Type} (sys : System) (ctx : context R)
    (f : window_info → World → World) (σ : World) : World :=
  let σ1 := sleep_until sys ctx.until_ σ
  ctx.windows.foldl (fun σ w => (f w σ).act sys (Event.closeHandle w.process)) σ1

/-- Source: the lambda main passes to context::wait.  The operands of a chain
of insertions into std::cout are evaluated from left to right (C++17), so the
cannot-kill text before the error string is written before getLastErrorString
is called, and the error string after it. -/
def killAndReport (sys : System) (w : window_info) (σ : World) : World :=
  match getTitle sys w.window σ with
  | (newtitle, σ1) =>
    let ok := sys.TerminateProcess σ1.step w.process
    let σ2 := σ1.act sys (Event.terminateProcess w.process ok)
    if !ok then
      let σ3 := σ2.act sys (Event.write ("cannot kill \"" ++ w.title ++ "\": "))
      match getLastErrorString sys σ3 with
      | (err, σ4) => σ4.act sys (Event.write err)
    else
      match newtitle with
      | some t =>
        if t ≠ w.title then
          σ2.act sys (Event.write ("killed \"" ++ t ++ "\"(previously \"" ++ w.title ++ "\")\n"))
        else
          σ2.act sys (Event.write ("killed \"" ++ w.title ++ "\"\n"))
      | none => σ2.act sys (Event.write ("killed \"" ++ w.title ++ "\"\n"))

/-- Source: the body of the report loop of main (one captured window). -/
def reportIntent (sys : System) (delay : Int) (w : window_info) (σ : World) : World :=
  let σ1 := σ.act sys (Event.write ("killing \"" ++ w.title ++ "\""))
  let σ2 := if delay > 0 then σ1.act sys (Event.write (" in " ++ toString delay ++ " seconds")) else σ1
  σ2.act sys (Event.write "\n")

/-- The C function isspace in the C locale. -/
def isspace (c : Char) : Bool :=
  c = ' ' || c = '\t' || c = '\n' || c = '\x0b' || c = '\x0c' || c = '\r'

/-- Value of the leading run of decimal digits, continuing from acc. -/
def digitsValue : List Char → Nat → Nat
  | [], acc => acc
  | c :: cs, acc => if c.isDigit then digitsValue cs (acc * 10 + (c.toNat - 48)) else acc

/-- Largest int. -/
def INT_MAX : Int := 2147483647

/-- Smallest int. -/
def INT_MIN : Int := -2147483648

/-- The integer written at the start of a string, as atoi reads it: leading
white space, an optional sign, then decimal digits; 0 when there is no digit. -/
def writtenValue (s : String) : Int :=
  match s.data.dropWhile isspace with
  | '-' :: ds => -(digitsValue ds 0 : Int)
  | '+' :: ds => digitsValue ds 0
  | ds => digitsValue ds 0

/-- The C function atoi: the integer written at the start of the string when
it fits an int; otherwise the behaviour is undefined and the result is
whatever the C runtime of the system gives. -/
def atoi (sys : System) (s : String) : Int :=
  if INT_MIN ≤ writtenValue s ∧ writtenValue s ≤ INT_MAX then writtenValue s
  else sys.atoiOutOfRange (writtenValue s)

/-- Source: usage_str in main. -/
def usage_str (argv0 : String) : String :=
  "Usage: " ++ argv0 ++
    " title [seconds]\n" ++
    "Automatically kill all windows matching title after a delay, " ++
    "if provided.\n" ++
    "Title may be a ECMAScript regex."

/-- How the process ends: main returns a code, or std::regex_error leaves main
uncaught and std::terminate aborts the process. -/
inductive Status where
  | exited (code : Int)
  | uncaught_regex_error
  deriving DecidableEq, Repr

/-- Source: main, lines 64-79: argument count and delay.  Gives the title
pattern and the delay in seconds, or none after printing the usage text. -/
def main_args (sys : System) (argv0 : String) (args : List String) (σ : World) :
    Option (String × Int) × World :=
  let argc := 1 + args.length
  if argc ≠ 2 ∧ argc ≠ 3 then
    (none, σ.act sys (Event.write (usage_str argv0 ++ "\n")))
  else
    let arg1 := args.getD 0 ""
    if argc = 3 then
      let arg2 := args.getD 1 ""
      let delay := atoi sys arg2 * 1
      if delay = 0 ∧ arg2 ≠ "0" then
        (none, σ.act sys (Event.write (usage_str argv0 ++ "\n")))
      else (some (arg1, delay), σ)
    else (some (arg1, 0), σ)

/-- Source: main, lines 81-83: compile the pattern, fix the deadline, enumerate. -/
def main_enumerate {R : Type} (lib : RegexLib R) (sys : System) (title : String)
    (delay : Int) (σ : World) : Option (Bool × (context R × World)) :=
  match lib.compile title with
  | none => none
  | some pattern =>
    let t0 := σ.clock
    let σ1 := σ.act sys (Event.now t0)
    let ctx : context R :=
      { pattern := pattern, until_ := (t0 : Int) + delay * sys.ticksPerSecond, windows := [] }
    some (EnumWindows sys (enumerator lib sys) ctx σ1)

/-- Source: main, lines 89-96: the report of intent. -/
def main_report {R : Type} (sys : System) (delay : Int) (ctx : context R) (σ : World) : World :=
  (ctx.windows.foldl (fun σ w => reportIntent sys delay w σ) σ).act sys Event.flush

/-- Source: main, lines 81-115, after the arguments were accepted.  On the
enumeration-failure exit the text before the error string is inserted into
std::cout before getLastErrorString is called (C++17 order of evaluation). -/
def main_run {R : Type} (lib : RegexLib R) (sys : System) (title : String)
    (delay : Int) (σ : World) : Status × World :=
  match main_enumerate lib sys title delay σ with
  | none => (Status.uncaught_regex_error, σ)
  | some (false, (_, σ2)) =>
    let σ3 := σ2.act sys (Event.write "enumeration failed: ")
    match getLastErrorString sys σ3 with
    | (err, σ4) => (Status.exited 1, σ4.act sys (Event.write err))
  | some (true, (ctx, σ2)) =>
    (Status.exited 0, ctx.wait sys (killAndReport sys) (main_report sys delay ctx σ2))

/-- Source: main.  The program name argv[0] is given apart from the other
arguments, so argc = 1 + args.length. -/
def main {R : Type} (lib : RegexLib R) (sys : System) (argv0 : String)
    (args : List String) : Status × World :=
  match main_args sys argv0 args (World.init sys) with
  | (none, σ) => (Status.exited 1, σ)
  | (some (title, delay), σ) => main_run lib sys title delay σ

/-! ## Observations on a trace -/

/-- The actions of a trace without their time stamps. -/
def events (σ : World) : List Event := σ.trace.map Prod.snd

/-- Everything written to standard output, in order. -/
def stdout : List Event → String
  | [] => ""
  | Event.write s :: es => s ++ stdout es
  | _ :: es => stdout es

/-- Process handles passed to TerminateProcess, in order. -/
def attempts : List Event → List HANDLE
  | [] => []
  | Event.terminateProcess h _ :: es => h :: attempts es
  | _ :: es => attempts es

/-- Process handles passed to CloseHandle, in order. -/
def closes : List Event → List HANDLE
  | [] => []
  | Event.closeHandle h :: es => h :: closes es
  | _ :: es => closes es

/-- Deadlines passed to sleep_until, in order. -/
def sleeps : List Event → List Int
  | [] => []
  | Event.sleepUntil t :: es => t :: sleeps es
  | _ :: es => sleeps es

/-- Process handles OpenProcess returned (null results left out), in order. -/
def acquired : List Event → List HANDLE
  | [] => []
  | Event.openProcess _ h :: es => if h = 0 then acquired es else h :: acquired es
  | _ :: es => acquired es

/-- Handles acquired and not released by the end of the trace. -/
def unreleased (es : List Event) : List HANDLE :=
  (acquired es).diff (closes es)

/-- The world σ1 continues σ: its trace is that of σ followed by the stamped
actions extra, all of them stamped between the clock of σ and the clock of σ1,
the clock did not run backwards, and the count of actions grew by the number
of actions logged. -/
def Follows (σ σ1 : World) (extra : List (Nat × Event)) : Prop :=
  σ1.trace = σ.trace ++ extra ∧ σ.clock ≤ σ1.clock ∧
    (∀ p ∈ extra, σ.clock ≤ p.1 ∧ p.1 ≤ σ1.clock) ∧ σ1.step = σ.step + extra.length

/-- The actions the visitor may perform on one enumerated window: it reads the
title, and when the title is readable it resolves the process and opens it. -/
def VisitBlock (window : HWND) (b : List Event) : Prop :=
  b = [Event.getWindowText window ""] ∨
  ∃ text pid h, text ≠ "" ∧
    b = [Event.getWindowText window text, Event.getWindowThreadProcessId window pid,
         Event.openProcess pid h]

/-- What a visit contributes to the Captured collection, read off the answers
logged in its block: an entry when the title was readable, the handle was
acquired and the title matches the pattern. -/
def capturedOf {R : Type} (lib : RegexLib R) (pattern : R) (window : HWND) :
    List Event → Option window_info
  | [Event.getWindowText _ text, Event.getWindowThreadProcessId _ _, Event.openProcess _ h] =>
    if text ≠ "" ∧ h ≠ 0 ∧ lib.regex_search text pattern = true then
      some { title := text, window := window, process := h }
    else none
  | _ => none

/-- The entries the visits contribute, in enumeration order: visits and their
blocks are paired, and each pair gives at most one entry. -/
def capturedFrom {R : Type} (lib : RegexLib R) (pattern : R) (ws : List HWND)
    (blocks : List (List Event)) : List window_info :=
  (ws.zip blocks).filterMap (fun p => capturedOf lib pattern p.1 p.2)

/-- The line reporting a successful termination, given the text the title
query returned just before the attempt. -/
def killedLine (w : window_info) (newtext : String) : String :=
  if newtext ≠ "" ∧ newtext ≠ w.title then
    "killed \"" ++ newtext ++ "\"(previously \"" ++ w.title ++ "\")\n"
  else "killed \"" ++ w.title ++ "\"\n"

/-- The actions getLastErrorString performs. -/
def IsErrorQuery (e : Event) : Prop :=
  (∃ c, e = Event.getLastError c) ∨ (∃ c, e = Event.formatMessage c) ∨ e = Event.localFree

/-- What getLastErrorString does when k actions were performed before it: the
error queries it makes and the text it returns, as the system answers them. -/
def errorReport (sys : System) (k : Nat) : List Event × String :=
  if sys.GetLastError k = 0 then ([Event.getLastError 0], "")
  else
    ([Event.getLastError (sys.GetLastError k), Event.formatMessage (sys.GetLastError k),
      Event.localFree], sys.FormatMessageA (k + 1) (sys.GetLastError k))

/-- The actions of the terminate phase on one captured window, when k actions
were performed before them: the title is read again (action k), termination is
attempted once on the window's handle and gets the answer the system gives to
action k + 1; after a success the killed line is written; after a failure the
cannot-kill text with the original title is written, the error text is fetched
from the system and written; last, the handle is closed. -/
def KillBlockAt (sys : System) (k : Nat) (w : window_info) (b : List Event) : Prop :=
  ∃ rest,
    b = Event.getWindowText w.window (String.mk (GetWindowText sys k w.window 256)) ::
      Event.terminateProcess w.process (sys.TerminateProcess (k + 1) w.process) :: rest ∧
    (sys.TerminateProcess (k + 1) w.process = true →
      rest = [Event.write (killedLine w (String.mk (GetWindowText sys k w.window 256))),
        Event.closeHandle w.process]) ∧
    (sys.TerminateProcess (k + 1) w.process = false →
      rest = Event.write ("cannot kill \"" ++ w.title ++ "\": ") ::
        ((errorReport sys (k + 3)).1 ++
          [Event.write (errorReport sys (k + 3)).2, Event.closeHandle w.process]))

/-- Consecutive blocks of actions, one per item and in the order of the items,
the first of them starting after k actions: each block satisfies Q at the
number of actions performed before it. -/
def BlocksAt {α : Type} (Q : Nat → α → List Event → Prop) :
    Nat → List α → List (List Event) → Prop
  | _, [], [] => True
  | k, a :: as, b :: bs => Q k a b ∧ BlocksAt Q (k + b.length) as bs
  | _, _ :: _, [] => False
  | _, [], _ :: _ => False

/-- The report-of-intent line for a title, as the specification words it. -/
def intentLine (delay : Int) (title : String) : String :=
  if delay > 0 then "killing \"" ++ title ++ "\" in " ++ toString delay ++ " seconds\n"
  else "killing \"" ++ title ++ "\"\n"

/-- The actions of the report phase on one captured window: writes only,
which together print the window's report-of-intent line. -/
def IntentBlock (delay : Int) (w : window_info) (b : List Event) : Prop :=
  (∀ e ∈ b, ∃ s, e = Event.write s) ∧ stdout b = intentLine delay w.title

/-- Lines put one after the other. -/
def concatLines : List String → String
  | [] => ""
  | l :: ls => l ++ concatLines ls

/-! ## Sample collaborators -/

/-- Whether the characters p occur consecutively somewhere in t. -/
def occursIn (p : List Char) : List Char → Bool
  | [] => p.isEmpty
  | c :: cs => p.isPrefixOf (c :: cs) || occursIn p cs

/-- A fragment of std::regex (ECMAScript grammar): a pattern made of letters,
digits and blanks only is a literal, found by unanchored search; the pattern
consisting of one opening parenthesis is rejected (error_paren).  Other
patterns are outside the fragment and are not used. -/
def literalRegex : RegexLib (List Char) where
  compile := fun p => if p.data.all (fun c => c.isAlphanum || c = ' ') then some p.data else none
  regex_search := fun title p => occursIn p title.data

/-- A desktop with two windows: window 1 is titled Calculator while the program
has performed fewer than nine actions and Calculator (closing) afterwards,
window 2 is titled Notepad.  Their processes are 4001 and 4002, opened as the
handles 5001 and 5002.  Ten ticks make a second, every action lasts one tick; an integer that does
not fit an int wraps around in atoi. -/
def desk : System where
  atoiOutOfRange := fun v => (v + 2147483648) % 4294967296 - 2147483648
  ticksPerSecond := 10
  start := 100
  elapse := fun _ => 1
  EnumWindows := fun _ => ([1, 2], true)
  windowText := fun k w =>
    if w = 1 then (if k < 9 then "Calculator" else "Calculator (closing)")
    else if w = 2 then "Notepad" else ""
  GetWindowThreadProcessId := fun _ w => 4000 + w
  OpenProcess := fun _ pid => pid + 1000
  TerminateProcess := fun _ _ => true
  GetLastError := fun _ => 0
  FormatMessageA := fun _ _ => ""

/-- The desk with a slow enumeration: the EnumWindows call itself takes
fifteen ticks (a second and a half) before the first window is visited. -/
def slowDesk : System :=
  { desk with elapse := fun k => if k = 1 then 15 else 1 }

/-- The desk on which EnumWindows visits window 1 and then reports failure. -/
def failingDesk : System :=
  { desk with EnumWindows := fun _ => ([1], false) }

/-- The context of the desk after the enumeration with pattern Calc and a
delay of 2 seconds. -/
def deskCtx : context (List Char) :=
  { pattern := ['C', 'a', 'l', 'c']
    until_ := 120
    windows := [{ title := "Calculator", window := 1, process := 5001 }] }

/-- The world of the desk after that enumeration. -/
def deskEnumerated : World :=
  { clock := 108
    step := 8
    trace := [(100, Event.now 100), (101, Event.enumWindows),
      (102, Event.getWindowText 1 "Calculator"),
      (103, Event.getWindowThreadProcessId 1 4001),
      (104, Event.openProcess 4001 5001),
      (105, Event.getWindowText 2 "Notepad"),
      (106, Event.getWindowThreadProcessId 2 4002),
      (107, Event.openProcess 4002 5002)] }

/-- The desk with the Calculator window alone. -/
def soloDesk : System :=
  { desk with EnumWindows := fun _ => ([1], true) }

/-- The world of the desk with the Calculator window alone after the
enumeration with pattern Calc and a delay of 2 seconds; the context is the
same as on the desk. -/
def soloEnumerated : World :=
  { clock := 105
    step := 5
    trace := [(100, Event.now 100), (101, Event.enumWindows),
      (102, Event.getWindowText 1 "Calculator"),
      (103, Event.getWindowThreadProcessId 1 4001),
      (104, Event.openProcess 4001 5001)] }

/-- A desktop with two windows that match Calc, Calculator (window 1, handle
5001) and Calc Notes (window 2, handle 5002), on which the process of the
Calculator cannot be terminated: TerminateProcess fails on 5001 with error 5,
described as Access is denied, and succeeds on 5002. -/
def stubbornDesk : System :=
  { desk with
    windowText := fun _ w =>
      if w = 1 then "Calculator" else if w = 2 then "Calc Notes" else ""
    TerminateProcess := fun _ h => decide (h ≠ 5001)
    GetLastError := fun _ => 5
    FormatMessageA := fun _ _ => "Access is denied.\r\n" }

/-- The context of that desktop after the enumeration with pattern Calc and
no delay. -/
def stubbornCtx : context (List Char) :=
  { pattern := ['C', 'a', 'l', 'c']
    until_ := 100
    windows := [{ title := "Calculator", window := 1, process := 5001 },
      { title := "Calc Notes", window := 2, process := 5002 }] }

/-- The world of that desktop after that enumeration. -/
def stubbornEnumerated : World :=
  { clock := 108
    step := 8
    trace := [(100, Event.now 100), (101, Event.enumWindows),
      (102, Event.getWindowText 1 "Calculator"),
      (103, Event.getWindowThreadProcessId 1 4001),
      (104, Event.openProcess 4001 5001),
      (105, Event.getWindowText 2 "Calc Notes"),
      (106, Event.getWindowThreadProcessId 2 4002),
      (107, Event.openProcess 4002 5002)] }

/-- A captured Calculator window. -/
def calculator : window_info :=
  { title := "Calculator", window := 1, process := 5001 }

/-- A world of the desk late enough for window 1 to have changed its title. -/
def deskLate : World :=
  { clock := 121, step := 13, trace := [] }

theorem Follows.rfl_ (σ : World) : Follows σ σ [] := by
  simp [Follows]

theorem Follows.trans {a b c : World} {x y : List (Nat × Event)}
    (h1 : Follows a b x) (h2 : Follows b c y) : Follows a c (x ++ y) := by
  obtain ⟨t1, c1, s1, n1⟩ := h1
  obtain ⟨t2, c2, s2, n2⟩ := h2
  refine ⟨by rw [t2, t1, List.append_assoc], le_trans c1 c2, ?_, ?_⟩
  · intro p hp
    rcases List.mem_append.mp hp with hp | hp
    · exact ⟨(s1 p hp).1, le_trans (s1 p hp).2 c2⟩
    · exact ⟨le_trans c1 (s2 p hp).1, (s2 p hp).2⟩
  · rw [n2, n1, List.length_append, Nat.add_assoc]

theorem events_of_follows {σ σ1 : World} {x : List (Nat × Event)} (h : Follows σ σ1 x) :
    events σ1 = events σ ++ x.map Prod.snd := by
  simp [events, h.1]

theorem follows_act (sys : System) (e : Event) (σ : World) :
    Follows σ (σ.act sys e) [(σ.clock, e)] := by
  simp [Follows, World.act]

theorem follows_sleep_until (sys : System) (t : Int) (σ : World) :
    Follows σ (sleep_until sys t σ) [(σ.clock, Event.sleepUntil t)] := by
  simp only [Follows, sleep_until, List.mem_singleton, forall_eq, le_refl, and_true, true_and,
    List.length_singleton]
  omega

theorem getTitle_follows (sys : System) (window : HWND) (σ : World) :
    ∃ text, Follows σ (getTitle sys window σ).2 [(σ.clock, Event.getWindowText window text)] ∧
      (getTitle sys window σ).1 = if text = "" then none else some text := by
  refine ⟨String.mk (GetWindowText sys σ.step window 256), ?_, ?_⟩
  · simp only [getTitle]
    split <;> exact follows_act sys _ σ
  · simp only [getTitle]
    have h : (String.mk (GetWindowText sys σ.step window 256) = "") ↔
        (GetWindowText sys σ.step window 256).length = 0 := by
      rw [List.length_eq_zero]
      constructor
      · intro h; exact congrArg String.data h
      · intro h; rw [h]
    by_cases h0 : (GetWindowText sys σ.step window 256).length = 0
    · rw [if_pos h0, if_pos (h.mpr h0)]
    · rw [if_neg h0, if_neg (fun e => h0 (h.mp e))]

theorem getTitle_explicit (sys : System) (window : HWND) (σ : World) :
    getTitle sys window σ =
      (if String.mk (GetWindowText sys σ.step window 256) = "" then none
        else some (String.mk (GetWindowText sys σ.step window 256)),
       σ.act sys (Event.getWindowText window (String.mk (GetWindowText sys σ.step window 256)))) := by
  have h : (String.mk (GetWindowText sys σ.step window 256) = "") ↔
      (GetWindowText sys σ.step window 256).length = 0 := by
    rw [List.length_eq_zero]
    constructor
    · intro h; exact congrArg String.data h
    · intro h; rw [h]
  simp only [getTitle]
  by_cases h0 : (GetWindowText sys σ.step window 256).length = 0
  · rw [if_pos h0, if_pos (h.mpr h0)]
  · rw [if_neg h0, if_neg (fun e => h0 (h.mp e))]

theorem getProcessHandle_follows (sys : System) (window : HWND) (σ : World) :
    ∃ pid t, Follows σ (getProcessHandle sys window σ).2
      [(σ.clock, Event.getWindowThreadProcessId window pid),
       (t, Event.openProcess pid (getProcessHandle sys window σ).1)] := by
  refine ⟨sys.GetWindowThreadProcessId σ.step window,
    (σ.act sys (Event.getWindowThreadProcessId window
      (sys.GetWindowThreadProcessId σ.step window))).clock, ?_⟩
  exact (follows_act sys _ σ).trans (follows_act sys _ _)

/-! ## The enumeration visitor -/

theorem call_block {R : Type} (lib : RegexLib R) (sys : System) (ctx : context R)
    (window : HWND) (σ : World) :
    ∃ extra, Follows σ (ctx.call lib sys window σ).2 extra ∧
      VisitBlock window (extra.map Prod.snd) ∧
      (ctx.call lib sys window σ).1.windows =
        ctx.windows ++ (capturedOf lib ctx.pattern window (extra.map Prod.snd)).toList ∧
      (ctx.call lib sys window σ).1.pattern = ctx.pattern ∧
      (ctx.call lib sys window σ).1.until_ = ctx.until_ := by
  obtain ⟨text, hf, hv⟩ := getTitle_follows sys window σ
  rcases hgt : getTitle sys window σ with ⟨_ | title, σ1⟩
  · rw [hgt] at hf hv
    have ht : text = "" := by
      by_contra hne
      rw [if_neg hne] at hv
      cases hv
    subst ht
    have hc : ctx.call lib sys window σ = (ctx, σ1) := by simp [context.call, hgt]
    rw [hc]
    refine ⟨_, hf, ?_⟩
    simp [VisitBlock, capturedOf]
  · rw [hgt] at hf hv
    have hne : text ≠ "" := by
      intro he
      rw [if_pos he] at hv
      cases hv
    have ht : title = text := by
      rw [if_neg hne] at hv
      exact Option.some.inj hv
    subst ht
    obtain ⟨pid, t, hp⟩ := getProcessHandle_follows sys window σ1
    rcases hgp : getProcessHandle sys window σ1 with ⟨process, σ2⟩
    rw [hgp] at hp
    by_cases h0 : process = 0
    · have hc : ctx.call lib sys window σ = (ctx, σ2) := by simp [context.call, hgt, hgp, h0]
      rw [hc]
      refine ⟨_, hf.trans hp, ?_⟩
      simp [VisitBlock, capturedOf, h0, hne]
    · by_cases hm : lib.regex_search title ctx.pattern = true
      · have hc : ctx.call lib sys window σ =
            ({ ctx with windows := ctx.windows ++
                [{ title := title, window := window, process := process }] }, σ2) := by
          simp [context.call, hgt, hgp, h0, hm]
        rw [hc]
        refine ⟨_, hf.trans hp, ?_⟩
        simp [VisitBlock, capturedOf, h0, hm, hne]
      · have hc : ctx.call lib sys window σ = (ctx, σ2) := by
          simp [context.call, hgt, hgp, h0, hm]
        rw [hc]
        refine ⟨_, hf.trans hp, ?_⟩
        simp [VisitBlock, capturedOf, h0, hm, hne]

theorem enumLoop_blocks {R : Type} (lib : RegexLib R) (sys : System) :
    ∀ (ws : List HWND) (ctx : context R) (σ : World),
      ∃ stamped : List (List (Nat × Event)),
        (enumLoop (enumerator lib sys) ws (ctx, σ)).1 = true ∧
        Follows σ (enumLoop (enumerator lib sys) ws (ctx, σ)).2.2 stamped.flatten ∧
        List.Forall₂ VisitBlock ws (stamped.map (List.map Prod.snd)) ∧
        (enumLoop (enumerator lib sys) ws (ctx, σ)).2.1.windows =
          ctx.windows ++ capturedFrom lib ctx.pattern ws (stamped.map (List.map Prod.snd)) ∧
        (enumLoop (enumerator lib sys) ws (ctx, σ)).2.1.pattern = ctx.pattern ∧
        (enumLoop (enumerator lib sys) ws (ctx, σ)).2.1.until_ = ctx.until_ := by
  intro ws
  induction ws with
  | nil =>
    intro ctx σ
    exact ⟨[], rfl, Follows.rfl_ σ, List.Forall₂.nil, by simp [enumLoop, capturedFrom], rfl, rfl⟩
  | cons w ws ih =>
    intro ctx σ
    obtain ⟨extra, hf, hv, hw, hp, hu⟩ := call_block lib sys ctx w σ
    obtain ⟨rest, h1, h2, h3, h4, h5, h6⟩ :=
      ih (ctx.call lib sys w σ).1 (ctx.call lib sys w σ).2
    have hstep : enumLoop (enumerator lib sys) (w :: ws) (ctx, σ) =
        enumLoop (enumerator lib sys) ws ((ctx.call lib sys w σ).1, (ctx.call lib sys w σ).2) := by
      simp [enumLoop, enumerator]
    rw [hstep]
    refine ⟨extra :: rest, h1, ?_, ?_, ?_, ?_, ?_⟩
    · simpa using hf.trans h2
    · simpa using List.Forall₂.cons hv h3
    · rw [h4, hw, hp]
      simp only [capturedFrom, List.map_cons, List.zip_cons_cons, List.filterMap_cons,
        List.append_assoc]
      cases capturedOf lib ctx.pattern w (List.map Prod.snd extra) <;> simp
    · rw [h5, hp]
    · rw [h6, hu]

theorem EnumWindows_blocks {R : Type} (lib : RegexLib R) (sys : System) (ctx : context R)
    (σ : World) :
    ∃ stamped : List (List (Nat × Event)),
      (EnumWindows sys (enumerator lib sys) ctx σ).1 = (sys.EnumWindows σ.step).2 ∧
      Follows σ (EnumWindows sys (enumerator lib sys) ctx σ).2.2
        ((σ.clock, Event.enumWindows) :: stamped.flatten) ∧
      List.Forall₂ VisitBlock (sys.EnumWindows σ.step).1 (stamped.map (List.map Prod.snd)) ∧
      (EnumWindows sys (enumerator lib sys) ctx σ).2.1.windows =
        ctx.windows ++
          capturedFrom lib ctx.pattern (sys.EnumWindows σ.step).1
            (stamped.map (List.map Prod.snd)) ∧
      (EnumWindows sys (enumerator lib sys) ctx σ).2.1.pattern = ctx.pattern ∧
      (EnumWindows sys (enumerator lib sys) ctx σ).2.1.until_ = ctx.until_ := by
  obtain ⟨stamped, h1, h2, h3, h4, h5, h6⟩ :=
    enumLoop_blocks lib sys (sys.EnumWindows σ.step).1 ctx (σ.act sys Event.enumWindows)
  refine ⟨stamped, ?_, ?_, h3, ?_, ?_, ?_⟩
  · simp [EnumWindows, h1]
  · simpa [EnumWindows] using (follows_act sys Event.enumWindows σ).trans h2
  · simpa [EnumWindows] using h4
  · simpa [EnumWindows] using h5
  · simpa [EnumWindows] using h6

theorem getLastErrorString_follows (sys : System) (σ : World) :
    ∃ extra, Follows σ (getLastErrorString sys σ).2 extra ∧
      extra.map Prod.snd = (errorReport sys σ.step).1 ∧
      (getLastErrorString sys σ).1 = (errorReport sys σ.step).2 := by
  by_cases h0 : sys.GetLastError σ.step = 0
  · have hc : getLastErrorString sys σ = ("", σ.act sys (Event.getLastError 0)) := by
      simp [getLastErrorString, h0]
    rw [hc]
    exact ⟨_, follows_act sys _ σ, by simp [errorReport, h0], by simp [errorReport, h0]⟩
  · have hc : getLastErrorString sys σ =
        (sys.FormatMessageA (σ.step + 1) (sys.GetLastError σ.step),
          ((σ.act sys (Event.getLastError (sys.GetLastError σ.step))).act sys
            (Event.formatMessage (sys.GetLastError σ.step))).act sys Event.localFree) := by
      simp [getLastErrorString, h0, World.act]
    rw [hc]
    exact ⟨_, ((follows_act sys _ σ).trans (follows_act sys _ _)).trans (follows_act sys _ _),
      by simp [errorReport, h0], by simp [errorReport, h0]⟩

theorem errorReport_queries (sys : System) (k : Nat) :
    ∀ e ∈ (errorReport sys k).1, IsErrorQuery e := by
  unfold errorReport
  split <;> simp [IsErrorQuery]

theorem killAndReport_block (sys : System) (w : window_info) (σ : World) :
    ∃ extra, Follows σ ((killAndReport sys w σ).act sys (Event.closeHandle w.process)) extra ∧
      KillBlockAt sys σ.step w (extra.map Prod.snd) := by
  have hgt := getTitle_explicit sys w.window σ
  have hf := follows_act sys
    (Event.getWindowText w.window (String.mk (GetWindowText sys σ.step w.window 256))) σ
  have hstep : ∀ e, (σ.act sys e).step = σ.step + 1 := fun _ => rfl
  have hterm := follows_act sys
    (Event.terminateProcess w.process (sys.TerminateProcess (σ.step + 1) w.process))
    (σ.act sys (Event.getWindowText w.window (String.mk (GetWindowText sys σ.step w.window 256))))
  cases hok : sys.TerminateProcess (σ.step + 1) w.process with
  | false =>
    rw [hok] at hterm
    obtain ⟨mid, hm, hq, herr⟩ := getLastErrorString_follows sys
      (((σ.act sys (Event.getWindowText w.window
        (String.mk (GetWindowText sys σ.step w.window 256)))).act sys
          (Event.terminateProcess w.process false)).act sys
            (Event.write ("cannot kill \"" ++ w.title ++ "\": ")))
    have hk3 : (((σ.act sys (Event.getWindowText w.window
        (String.mk (GetWindowText sys σ.step w.window 256)))).act sys
          (Event.terminateProcess w.process false)).act sys
            (Event.write ("cannot kill \"" ++ w.title ++ "\": "))).step = σ.step + 3 := rfl
    rw [hk3] at hq herr
    rcases hge : getLastErrorString sys
      (((σ.act sys (Event.getWindowText w.window
        (String.mk (GetWindowText sys σ.step w.window 256)))).act sys
          (Event.terminateProcess w.process false)).act sys
            (Event.write ("cannot kill \"" ++ w.title ++ "\": "))) with ⟨err, σ4⟩
    rw [hge] at hm herr
    simp only at herr
    have hc : killAndReport sys w σ = σ4.act sys (Event.write err) := by
      simp [killAndReport, hgt, hstep, hok, hge]
    rw [hc]
    refine ⟨_, (((((hf.trans hterm).trans (follows_act sys _ _)).trans hm).trans
      (follows_act sys _ _)).trans (follows_act sys _ _)), ?_⟩
    refine ⟨Event.write ("cannot kill \"" ++ w.title ++ "\": ") ::
      ((errorReport sys (σ.step + 3)).1 ++
        [Event.write (errorReport sys (σ.step + 3)).2, Event.closeHandle w.process]), ?_, ?_, ?_⟩
    · simp [hok, hq, herr]
    · intro h; rw [hok] at h; cases h
    · intro _; rfl
  | true =>
    rw [hok] at hterm
    have hc : killAndReport sys w σ =
        ((σ.act sys (Event.getWindowText w.window
          (String.mk (GetWindowText sys σ.step w.window 256)))).act sys
            (Event.terminateProcess w.process true)).act sys
          (Event.write (killedLine w (String.mk (GetWindowText sys σ.step w.window 256)))) := by
      by_cases he : String.mk (GetWindowText sys σ.step w.window 256) = ""
      · simp [killAndReport, hgt, hstep, hok, he, killedLine]
      · by_cases ht : String.mk (GetWindowText sys σ.step w.window 256) = w.title
        · have he2 : ¬ w.title = "" := fun e => he (ht.trans e)
          simp [killAndReport, hgt, hstep, hok, he2, ht, killedLine]
        · simp [killAndReport, hgt, hstep, hok, he, ht, killedLine]
    rw [hc]
    refine ⟨_, ((hf.trans hterm).trans (follows_act sys _ _)).trans (follows_act sys _ _), ?_⟩
    refine ⟨[Event.write (killedLine w (String.mk (GetWindowText sys σ.step w.window 256))),
      Event.closeHandle w.process], ?_, ?_, ?_⟩
    · simp [hok]
    · intro _; rfl
    · intro h; rw [hok] at h; cases h

theorem foldl_blocks {α : Type} (step : World → α → World) (Q : α → List Event → Prop)
    (h : ∀ σ a, ∃ extra, Follows σ (step σ a) extra ∧ Q a (extra.map Prod.snd)) :
    ∀ (as : List α) (σ : World), ∃ stamped : List (List (Nat × Event)),
      Follows σ (as.foldl step σ) stamped.flatten ∧
      List.Forall₂ Q as (stamped.map (List.map Prod.snd)) := by
  intro as
  induction as with
  | nil => intro σ; exact ⟨[], Follows.rfl_ σ, List.Forall₂.nil⟩
  | cons a as ih =>
    intro σ
    obtain ⟨extra, hf, hq⟩ := h σ a
    obtain ⟨rest, h1, h2⟩ := ih (step σ a)
    refine ⟨extra :: rest, ?_, ?_⟩
    · simpa using hf.trans h1
    · simpa using List.Forall₂.cons hq h2

theorem foldl_blocks_at {α : Type} (step : World → α → World)
    (Q : Nat → α → List Event → Prop)
    (h : ∀ σ a, ∃ extra, Follows σ (step σ a) extra ∧ Q σ.step a (extra.map Prod.snd)) :
    ∀ (as : List α) (σ : World), ∃ stamped : List (List (Nat × Event)),
      Follows σ (as.foldl step σ) stamped.flatten ∧
      BlocksAt Q σ.step as (stamped.map (List.map Prod.snd)) := by
  intro as
  induction as with
  | nil => intro σ; exact ⟨[], Follows.rfl_ σ, trivial⟩
  | cons a as ih =>
    intro σ
    obtain ⟨extra, hf, hq⟩ := h σ a
    obtain ⟨rest, h1, h2⟩ := ih (step σ a)
    refine ⟨extra :: rest, ?_, ?_⟩
    · simpa using hf.trans h1
    · rw [hf.2.2.2] at h2
      simpa [BlocksAt] using And.intro hq h2

theorem wait_blocks {R : Type} (sys : System) (ctx : context R) (σ : World) :
    ∃ stamped : List (List (Nat × Event)),
      Follows (sleep_until sys ctx.until_ σ) (ctx.wait sys (killAndReport sys) σ)
        stamped.flatten ∧
      BlocksAt (KillBlockAt sys) (σ.step + 1) ctx.windows (stamped.map (List.map Prod.snd)) := by
  exact foldl_blocks_at
    (fun σ w => (killAndReport sys w σ).act sys (Event.closeHandle w.process))
    (KillBlockAt sys) (fun σ w => killAndReport_block sys w σ) ctx.windows
    (sleep_until sys ctx.until_ σ)

theorem main_args_some (sys : System) (argv0 : String) (args : List String) (σ σ1 : World)
    (title : String) (delay : Int)
    (h : main_args sys argv0 args σ = (some (title, delay), σ1)) :
    σ1 = σ ∧ ((args = [title] ∧ delay = 0) ∨
      ∃ secs, args = [title, secs] ∧ delay = atoi sys secs ∧ (delay ≠ 0 ∨ secs = "0")) := by
  match args, h with
  | [], h => simp [main_args] at h
  | [a], h =>
    simp [main_args] at h
    obtain ⟨⟨h1, h2⟩, h3⟩ := h
    exact ⟨h3.symm, Or.inl ⟨by rw [h1], h2.symm⟩⟩
  | [a, b], h =>
    have hm : main_args sys argv0 [a, b] σ =
        if atoi sys b = 0 ∧ b ≠ "0" then
          (none, σ.act sys (Event.write (usage_str argv0 ++ "\n")))
        else (some (a, atoi sys b), σ) := by
      simp [main_args]
    rw [hm] at h
    by_cases hb : atoi sys b = 0 ∧ b ≠ "0"
    · rw [if_pos hb] at h
      cases h
    · rw [if_neg hb] at h
      cases h
      refine ⟨rfl, Or.inr ⟨b, rfl, rfl, ?_⟩⟩
      by_cases h0 : atoi sys b = 0
      · right
        by_contra hne
        exact hb ⟨h0, hne⟩
      · exact Or.inl h0
  | a :: b :: c :: rest, h =>
    have hm : main_args sys argv0 (a :: b :: c :: rest) σ =
        (none, σ.act sys (Event.write (usage_str argv0 ++ "\n"))) := by
      have h2 : ¬ (1 + (rest.length + 1 + 1 + 1) = 2) := by omega
      have h3 : ¬ (1 + (rest.length + 1 + 1 + 1) = 3) := by omega
      simp [main_args, h2, h3]
    rw [hm] at h
    cases h

theorem main_enumerate_some {R : Type} (lib : RegexLib R) (sys : System) (title : String)
    (delay : Int) (σ σ2 : World) (ok : Bool) (ctx : context R)
    (h : main_enumerate lib sys title delay σ = some (ok, (ctx, σ2))) :
    ∃ pattern, lib.compile title = some pattern ∧
      EnumWindows sys (enumerator lib sys)
        { pattern := pattern, until_ := (σ.clock : Int) + delay * sys.ticksPerSecond,
          windows := [] } (σ.act sys (Event.now σ.clock)) = (ok, (ctx, σ2)) := by
  unfold main_enumerate at h
  cases hc : lib.compile title with
  | none => rw [hc] at h; cases h
  | some pattern =>
    rw [hc] at h
    exact ⟨pattern, rfl, Option.some.inj h⟩

theorem reportIntent_block (sys : System) (delay : Int) (w : window_info) (σ : World) :
    ∃ extra, Follows σ (reportIntent sys delay w σ) extra ∧
      IntentBlock delay w (extra.map Prod.snd) := by
  by_cases hd : delay > 0
  · have hc : reportIntent sys delay w σ =
        ((σ.act sys (Event.write ("killing \"" ++ w.title ++ "\""))).act sys
          (Event.write (" in " ++ toString delay ++ " seconds"))).act sys (Event.write "\n") := by
      simp [reportIntent, hd]
    rw [hc]
    refine ⟨_, ((follows_act sys _ σ).trans (follows_act sys _ _)).trans (follows_act sys _ _),
      ?_, ?_⟩
    · simp
    · simp only [List.map, List.singleton_append, List.cons_append, List.nil_append, stdout,
        intentLine, if_pos hd]
      apply String.ext
      simp [String.data_append]
  · have hc : reportIntent sys delay w σ =
        (σ.act sys (Event.write ("killing \"" ++ w.title ++ "\""))).act sys (Event.write "\n") := by
      simp [reportIntent, hd]
    rw [hc]
    refine ⟨_, (follows_act sys _ σ).trans (follows_act sys _ _), ?_, ?_⟩
    · simp
    · simp only [List.map, List.singleton_append, List.cons_append, List.nil_append, stdout,
        intentLine, if_neg hd]
      apply String.ext
      simp [String.data_append]

theorem le_clock_sleep_until (sys : System) (t : Int) (σ : World) :
    t ≤ ((sleep_until sys t σ).clock : Int) := by
  simp only [sleep_until]
  omega

/-! ## Observations distribute over blocks -/

theorem attempts_append (a b : List Event) : attempts (a ++ b) = attempts a ++ attempts b := by
  induction a with
  | nil => rfl
  | cons e es ih => cases e <;> simp [attempts, ih]

theorem closes_append (a b : List Event) : closes (a ++ b) = closes a ++ closes b := by
  induction a with
  | nil => rfl
  | cons e es ih => cases e <;> simp [closes, ih]

theorem sleeps_append (a b : List Event) : sleeps (a ++ b) = sleeps a ++ sleeps b := by
  induction a with
  | nil => rfl
  | cons e es ih => cases e <;> simp [sleeps, ih]

theorem stdout_append (a b : List Event) : stdout (a ++ b) = stdout a ++ stdout b := by
  induction a with
  | nil => simp [stdout]
  | cons e es ih => cases e <;> simp [stdout, ih, String.append_assoc]

theorem visit_attempts (w : HWND) (b : List Event) (h : VisitBlock w b) : attempts b = [] := by
  rcases h with h | ⟨_, _, _, _, h⟩ <;> subst h <;> rfl

theorem visit_closes (w : HWND) (b : List Event) (h : VisitBlock w b) : closes b = [] := by
  rcases h with h | ⟨_, _, _, _, h⟩ <;> subst h <;> rfl

theorem visit_stdout (w : HWND) (b : List Event) (h : VisitBlock w b) : stdout b = "" := by
  rcases h with h | ⟨_, _, _, _, h⟩ <;> subst h <;> rfl

theorem visit_sleeps (w : HWND) (b : List Event) (h : VisitBlock w b) : sleeps b = [] := by
  rcases h with h | ⟨_, _, _, _, h⟩ <;> subst h <;> rfl

theorem writes_attempts : ∀ (b : List Event), (∀ e ∈ b, ∃ s, e = Event.write s) →
    attempts b = [] ∧ closes b = [] ∧ sleeps b = [] := by
  intro b
  induction b with
  | nil => intro _; exact ⟨rfl, rfl, rfl⟩
  | cons e es ih =>
    intro h
    obtain ⟨s, hs⟩ := h e (List.mem_cons_self _ _)
    subst hs
    have := ih (fun e he => h e (List.mem_cons_of_mem _ he))
    simpa [attempts, closes, sleeps] using this

theorem errorQueries_quiet : ∀ (b : List Event), (∀ e ∈ b, IsErrorQuery e) →
    attempts b = [] ∧ closes b = [] ∧ stdout b = "" := by
  intro b
  induction b with
  | nil => intro _; exact ⟨rfl, rfl, rfl⟩
  | cons e es ih =>
    intro h
    have hrec := ih (fun e he => h e (List.mem_cons_of_mem _ he))
    rcases h e (List.mem_cons_self _ _) with ⟨c, hc⟩ | ⟨c, hc⟩ | hc <;> subst hc <;>
      simpa [attempts, closes, stdout] using hrec

theorem kill_attempts (sys : System) (k : Nat) (w : window_info) (b : List Event)
    (h : KillBlockAt sys k w b) : attempts b = [w.process] := by
  obtain ⟨rest, hb, ht, hf⟩ := h
  subst hb
  cases hok : sys.TerminateProcess (k + 1) w.process with
  | true => rw [ht hok]; simp [attempts]
  | false =>
    rw [hf hok]
    simp [attempts, attempts_append, (errorQueries_quiet _ (errorReport_queries sys (k + 3))).1]

theorem kill_closes (sys : System) (k : Nat) (w : window_info) (b : List Event)
    (h : KillBlockAt sys k w b) : closes b = [w.process] := by
  obtain ⟨rest, hb, ht, hf⟩ := h
  subst hb
  cases hok : sys.TerminateProcess (k + 1) w.process with
  | true => rw [ht hok]; simp [closes]
  | false =>
    rw [hf hok]
    simp [closes, closes_append, (errorQueries_quiet _ (errorReport_queries sys (k + 3))).2.1]

theorem kill_stdout (sys : System) (k : Nat) (w : window_info) (b : List Event)
    (h : KillBlockAt sys k w b) :
    (sys.TerminateProcess (k + 1) w.process = true →
      stdout b = killedLine w (String.mk (GetWindowText sys k w.window 256))) ∧
    (sys.TerminateProcess (k + 1) w.process = false →
      stdout b = "cannot kill \"" ++ w.title ++ "\": " ++ (errorReport sys (k + 3)).2) := by
  obtain ⟨rest, hb, ht, hf⟩ := h
  subst hb
  constructor
  · intro hok
    rw [ht hok]
    simp [stdout]
  · intro hok
    rw [hf hok]
    simp [stdout, stdout_append,
      (errorQueries_quiet _ (errorReport_queries sys (k + 3))).2.2]

theorem blocksAt_forall₂ {α : Type} (Q : Nat → α → List Event → Prop) :
    ∀ (as : List α) (bs : List (List Event)) (k : Nat), BlocksAt Q k as bs →
      List.Forall₂ (fun a b => ∃ k, Q k a b) as bs := by
  intro as
  induction as with
  | nil =>
    intro bs k h
    cases bs with
    | nil => exact List.Forall₂.nil
    | cons b bs => exact absurd h (by simp [BlocksAt])
  | cons a as ih =>
    intro bs k h
    cases bs with
    | nil => exact absurd h (by simp [BlocksAt])
    | cons b bs =>
      simp only [BlocksAt] at h
      exact List.Forall₂.cons ⟨k, h.1⟩ (ih bs _ h.2)

/-- The whole trace of a run whose arguments are accepted, whose pattern
compiles and whose enumeration succeeds: the clock is read, the windows are
enumerated and visited, one report block is written per captured window,
standard output is flushed, the program sleeps until the deadline, and one
terminate block is performed per captured window, none of it before the
deadline. -/
theorem main_trace {R : Type} (lib : RegexLib R) (sys : System) (argv0 : String)
    (args : List String) (title : String) (delay : Int) (ctx : context R) (σ0 σ2 : World)
    (hargs : main_args sys argv0 args (World.init sys) = (some (title, delay), σ0))
    (henum : main_enumerate lib sys title delay σ0 = some (true, (ctx, σ2))) :
    ∃ (pattern : R) (vs ps ks : List (List (Nat × Event))) (c1 c2 c3 : Nat),
      lib.compile title = some pattern ∧
      ctx.pattern = pattern ∧
      ctx.until_ = (sys.start : Int) + delay * sys.ticksPerSecond ∧
      (main lib sys argv0 args).1 = Status.exited 0 ∧
      (main lib sys argv0 args).2.trace =
        (sys.start, Event.now sys.start) :: (c1, Event.enumWindows) ::
          (vs.flatten ++ (ps.flatten ++
            ((c2, Event.flush) :: (c3, Event.sleepUntil ctx.until_) :: ks.flatten))) ∧
      List.Forall₂ VisitBlock (sys.EnumWindows 1).1 (vs.map (List.map Prod.snd)) ∧
      ctx.windows = capturedFrom lib pattern (sys.EnumWindows 1).1 (vs.map (List.map Prod.snd)) ∧
      List.Forall₂ (IntentBlock delay) ctx.windows (ps.map (List.map Prod.snd)) ∧
      BlocksAt (KillBlockAt sys) (vs.flatten.length + ps.flatten.length + 4) ctx.windows
        (ks.map (List.map Prod.snd)) ∧
      (∀ p ∈ vs.flatten ++ ps.flatten, sys.start ≤ p.1 ∧ p.1 ≤ c3) ∧
      (∀ p ∈ ks.flatten, ctx.until_ ≤ (p.1 : Int) ∧ c3 ≤ p.1) ∧
      c3 = (main_report sys delay ctx σ2).clock ∧ sys.start ≤ c1 ∧ c1 ≤ c2 ∧ c2 ≤ c3 := by
  obtain ⟨hσ, -⟩ := main_args_some sys argv0 args _ _ title delay hargs
  subst hσ
  obtain ⟨pattern, hcomp, henum2⟩ := main_enumerate_some lib sys title delay _ _ true ctx henum
  obtain ⟨vs, -, hv2, hv3, hv4, hv5, hv6⟩ := EnumWindows_blocks lib sys
    { pattern := pattern, until_ := ((World.init sys).clock : Int) + delay * sys.ticksPerSecond,
      windows := [] } ((World.init sys).act sys (Event.now (World.init sys).clock))
  rw [henum2] at hv2 hv4 hv5 hv6
  simp only at hv2 hv4 hv5 hv6
  obtain ⟨ps, hp1, hp2⟩ := foldl_blocks (fun σ w => reportIntent sys delay w σ)
    (IntentBlock delay) (fun σ w => reportIntent_block sys delay w σ) ctx.windows σ2
  obtain ⟨ks, hk1, hk2⟩ := wait_blocks sys ctx (main_report sys delay ctx σ2)
  have hflush := follows_act sys Event.flush
    (ctx.windows.foldl (fun σ w => reportIntent sys delay w σ) σ2)
  have hsleep := follows_sleep_until sys ctx.until_ (main_report sys delay ctx σ2)
  have hmain : main lib sys argv0 args =
      (Status.exited 0, ctx.wait sys (killAndReport sys) (main_report sys delay ctx σ2)) := by
    simp [main, hargs, main_run, henum]
  have hnow := follows_act sys (Event.now (World.init sys).clock) (World.init sys)
  have hall := ((((hnow.trans hv2).trans hp1).trans hflush).trans hsleep).trans hk1
  refine ⟨pattern, vs, ps, ks,
    ((World.init sys).act sys (Event.now (World.init sys).clock)).clock,
    (ctx.windows.foldl (fun σ w => reportIntent sys delay w σ) σ2).clock,
    (main_report sys delay ctx σ2).clock,
    hcomp, hv5, hv6, by rw [hmain], ?_, hv3, ?_, hp2, ?_, ?_, ?_, rfl, ?_, ?_, ?_⟩
  · rw [hmain]
    have ht := hall.1
    simp only [main_report] at ht ⊢
    rw [ht]
    simp [World.init]
  · simpa using hv4
  · have hs := (((hnow.trans hv2).trans hp1).trans hflush).2.2.2
    have hidx : (main_report sys delay ctx σ2).step + 1 =
        vs.flatten.length + ps.flatten.length + 4 := by
      simp only [main_report]
      rw [hs]
      simp [World.init]
      omega
    rw [← hidx]
    exact hk2
  · intro p hp
    have hmem : p ∈ [((World.init sys).clock, Event.now (World.init sys).clock)] ++
        (((World.init sys).act sys (Event.now (World.init sys).clock)).clock,
          Event.enumWindows) :: vs.flatten ++ ps.flatten := by
      simp only [List.mem_append, List.mem_cons, List.mem_singleton] at hp ⊢
      tauto
    have hb := ((hnow.trans hv2).trans hp1).2.2.1 p hmem
    have hc := hflush.2.1
    simp only [main_report]
    exact ⟨by simpa [World.init] using hb.1, le_trans hb.2 hc⟩
  · intro p hp
    have h1 := hk1.2.2.1 p hp
    have h2 := le_clock_sleep_until sys ctx.until_ (main_report sys delay ctx σ2)
    have h3 := hsleep.2.1
    exact ⟨by omega, le_trans h3 h1.1⟩
  · simpa [World.init] using hnow.2.1
  · exact (hv2.trans hp1).2.1
  · simpa [main_report] using hflush.2.1

/-- The actions of a run that reaches the terminate phase, without stamps. -/
theorem main_events {R : Type} (lib : RegexLib R) (sys : System) (argv0 : String)
    (args : List String) (title : String) (delay : Int) (ctx : context R) (σ0 σ2 : World)
    (hargs : main_args sys argv0 args (World.init sys) = (some (title, delay), σ0))
    (henum : main_enumerate lib sys title delay σ0 = some (true, (ctx, σ2))) :
    ∃ (vb pb kb : List (List Event)),
      (main lib sys argv0 args).1 = Status.exited 0 ∧
      events (main lib sys argv0 args).2 =
        Event.now sys.start :: Event.enumWindows ::
          (vb.flatten ++ (pb.flatten ++
            (Event.flush :: Event.sleepUntil ctx.until_ :: kb.flatten))) ∧
      List.Forall₂ VisitBlock (sys.EnumWindows 1).1 vb ∧
      List.Forall₂ (IntentBlock delay) ctx.windows pb ∧
      BlocksAt (KillBlockAt sys) (vb.flatten.length + pb.flatten.length + 4) ctx.windows kb := by
  obtain ⟨pattern, vs, ps, ks, c1, c2, c3, -, -, -, hst, htr, hv, -, hp, hk, -, -, -, -, -, -⟩ :=
    main_trace lib sys argv0 args title delay ctx σ0 σ2 hargs henum
  refine ⟨vs.map (List.map Prod.snd), ps.map (List.map Prod.snd), ks.map (List.map Prod.snd),
    hst, ?_, hv, hp, ?_⟩
  · simp [events, htr, List.map_flatten]
  · have h1 : (vs.map (List.map Prod.snd)).flatten.length = vs.flatten.length := by
      rw [← List.map_flatten, List.length_map]
    have h2 : (ps.map (List.map Prod.snd)).flatten.length = ps.flatten.length := by
      rw [← List.map_flatten, List.length_map]
    rw [h1, h2]
    exact hk

theorem intent_stdout (delay : Int) :
    ∀ (ws : List window_info) (bs : List (List Event)),
      List.Forall₂ (IntentBlock delay) ws bs →
        stdout bs.flatten = concatLines (ws.map (fun w => intentLine delay w.title)) := by
  intro ws bs hq
  induction hq with
  | nil => rfl
  | cons h1 _ ih => simp [stdout_append, ih, h1.2, concatLines]

theorem intent_quiet (delay : Int) :
    ∀ (ws : List window_info) (bs : List (List Event)),
      List.Forall₂ (IntentBlock delay) ws bs →
        attempts bs.flatten = [] ∧ closes bs.flatten = [] ∧ sleeps bs.flatten = [] := by
  intro ws bs hq
  induction hq with
  | nil => exact ⟨rfl, rfl, rfl⟩
  | cons h1 _ ih =>
    have := writes_attempts _ h1.1
    simp [attempts_append, closes_append, sleeps_append, ih, this]

theorem visit_quiet :
    ∀ (ws : List HWND) (bs : List (List Event)), List.Forall₂ VisitBlock ws bs →
      attempts bs.flatten = [] ∧ closes bs.flatten = [] ∧ stdout bs.flatten = "" ∧
        sleeps bs.flatten = [] := by
  intro ws bs hq
  induction hq with
  | nil => exact ⟨rfl, rfl, rfl, rfl⟩
  | cons h1 _ ih =>
    simp [attempts_append, closes_append, stdout_append, sleeps_append, ih,
      visit_attempts _ _ h1, visit_closes _ _ h1, visit_stdout _ _ h1, visit_sleeps _ _ h1]

theorem blocksAt_imp {α : Type} (Q Q1 : Nat → α → List Event → Prop)
    (h : ∀ k a b, Q k a b → Q1 k a b) :
    ∀ (as : List α) (bs : List (List Event)) (k : Nat), BlocksAt Q k as bs →
      BlocksAt Q1 k as bs := by
  intro as
  induction as with
  | nil =>
    intro bs k hb
    cases bs with
    | nil => trivial
    | cons b bs => exact absurd hb (by simp [BlocksAt])
  | cons a as ih =>
    intro bs k hb
    cases bs with
    | nil => exact absurd hb (by simp [BlocksAt])
    | cons b bs =>
      simp only [BlocksAt] at hb ⊢
      exact ⟨h _ _ _ hb.1, ih bs _ hb.2⟩

theorem kill_handles (sys : System) :
    ∀ (ws : List window_info) (bs : List (List Event)) (k : Nat),
      BlocksAt (KillBlockAt sys) k ws bs →
        attempts bs.flatten = ws.map window_info.process ∧
        closes bs.flatten = ws.map window_info.process := by
  intro ws bs k hb
  have hq := blocksAt_forall₂ (KillBlockAt sys) ws bs k hb
  clear hb
  induction hq with
  | nil => exact ⟨rfl, rfl⟩
  | cons h1 _ ih =>
    obtain ⟨k1, hk1⟩ := h1
    simp [attempts_append, closes_append, ih, kill_attempts sys k1 _ _ hk1,
      kill_closes sys k1 _ _ hk1]

/-! ## The delay argument -/

theorem digitChar_facts : ∀ k, k < 10 →
    (Nat.digitChar k).isDigit = true ∧ (Nat.digitChar k).toNat - 48 = k ∧
    isspace (Nat.digitChar k) = false ∧ Nat.digitChar k ≠ '-' ∧ Nat.digitChar k ≠ '+' := by
  decide

theorem digitsValue_toDigitsCore : ∀ (fuel n : Nat) (ds : List Char), n < fuel →
    digitsValue (Nat.toDigitsCore 10 fuel n ds) 0 = digitsValue ds n := by
  intro fuel
  induction fuel with
  | zero => intro n ds h; omega
  | succ fuel ih =>
    intro n ds h
    have hd := digitChar_facts (n % 10) (Nat.mod_lt _ (by decide))
    simp only [Nat.toDigitsCore]
    by_cases h0 : n / 10 = 0
    · rw [if_pos h0]
      have hn : n % 10 = n := Nat.mod_eq_of_lt (by omega)
      simp only [digitsValue, hd.1, if_true, hd.2.1]
      rw [hn]; simp
    · rw [if_neg h0]
      rw [ih (n / 10) _ (by omega)]
      simp only [digitsValue, hd.1, if_true, hd.2.1]
      congr 1
      omega

theorem toDigitsCore_head : ∀ (fuel n : Nat) (ds : List Char), n < fuel →
    ∃ k, k < 10 ∧ ∃ tl, Nat.toDigitsCore 10 fuel n ds = Nat.digitChar k :: tl := by
  intro fuel
  induction fuel with
  | zero => intro n ds h; omega
  | succ fuel ih =>
    intro n ds h
    simp only [Nat.toDigitsCore]
    by_cases h0 : n / 10 = 0
    · rw [if_pos h0]
      exact ⟨n % 10, Nat.mod_lt _ (by decide), ds, rfl⟩
    · rw [if_neg h0]
      exact ih (n / 10) _ (by omega)

theorem atoi_of_range (sys : System) (s : String)
    (h : INT_MIN ≤ writtenValue s ∧ writtenValue s ≤ INT_MAX) :
    atoi sys s = writtenValue s := by
  unfold atoi
  rw [if_pos h]

/-- A decimal numeral is read back as its value. -/
theorem writtenValue_toString (n : Nat) : writtenValue (toString n) = n := by
  have hdata : (toString n).data = Nat.toDigitsCore 10 (n + 1) n [] := rfl
  obtain ⟨k, hk, tl, htl⟩ := toDigitsCore_head (n + 1) n [] (by omega)
  have hv := digitsValue_toDigitsCore (n + 1) n [] (by omega)
  have hd := digitChar_facts k hk
  unfold writtenValue
  rw [hdata, htl] at *
  simp only [List.dropWhile, hd.2.2.1]
  split
  · rename_i heq
    simp at heq
    exact absurd heq.1 hd.2.2.2.1
  · rename_i heq
    simp at heq
    exact absurd heq.1 hd.2.2.2.2
  · rw [hv]
    simp [digitsValue]

/-- A decimal numeral within the range of int is read back as its value,
whatever the C runtime does out of range. -/
theorem atoi_toString (sys : System) (n : Nat) (h : (n : Int) ≤ INT_MAX) :
    atoi sys (toString n) = n := by
  rw [atoi_of_range sys _ (by rw [writtenValue_toString]; exact ⟨by unfold INT_MIN; omega, h⟩),
    writtenValue_toString]

/-- The sign of the integer written follows the sign character. -/
theorem writtenValue_sign (s : String) :
    ((s.data.dropWhile isspace).head? ≠ some '-' → 0 ≤ writtenValue s) ∧
    ((s.data.dropWhile isspace).head? = some '-' → writtenValue s ≤ 0) := by
  unfold writtenValue
  split
  · rename_i ds heq
    rw [heq]
    refine ⟨fun h => absurd rfl h, fun _ => by omega⟩
  · rename_i ds heq
    rw [heq]
    refine ⟨fun _ => by omega, fun h => ?_⟩
    simp at h
  · rename_i ds hm hp
    refine ⟨fun _ => by omega, fun h => ?_⟩
    cases hds : List.dropWhile isspace s.data with
    | nil => rw [hds] at h; simp at h
    | cons c cs =>
      rw [hds] at h
      simp only [List.head?_cons, Option.some.injEq] at h
      exact absurd (h ▸ hds) (hm cs)

theorem main_args_pair (sys : System) (argv0 title secs : String) (σ : World) :
    main_args sys argv0 [title, secs] σ =
      if atoi sys secs = 0 ∧ secs ≠ "0" then
        (none, σ.act sys (Event.write (usage_str argv0 ++ "\n")))
      else (some (title, atoi sys secs), σ) := by
  simp [main_args]

theorem mem_attempts (h : HANDLE) (ok : Bool) :
    ∀ (es : List Event), Event.terminateProcess h ok ∈ es → h ∈ attempts es := by
  intro es
  induction es with
  | nil => intro hm; cases hm
  | cons e es ih =>
    intro hm
    rcases List.mem_cons.mp hm with he | he
    · subst he
      simp [attempts]
    · have := ih he
      cases e <;> simp [attempts, this]

theorem sleep_until_past (sys : System) (t : Int) (σ : World) (h : t ≤ σ.clock) :
    sleep_until sys t σ = σ.act sys (Event.sleepUntil t) := by
  have hmax : max σ.clock t.toNat = σ.clock := by
    apply max_eq_left
    omega
  simp [sleep_until, World.act, hmax]

/-! ## Claim C1 -/

/-- Claim C2: in a run that reaches the terminate phase, the actions after the
sleep are one block per captured window, in collection order; in each block
termination is attempted on the window's handle with the answer the system
gives, and whether the answer is success or failure the block ends with the one
CloseHandle call on that handle; nothing is closed before the terminate phase,
so the handles closed in the whole run are exactly those of the captured
windows, one CloseHandle each, and when the captured handles are pairwise
distinct each of them is closed exactly once. -/
theorem C2_each_handle_closed_once {R : Type} (lib : RegexLib R) (sys : System)
    (argv0 : String) (args : List String) (title : String) (delay : Int) (ctx : context R)
    (σ0 σ2 : World)
    (hargs : main_args sys argv0 args (World.init sys) = (some (title, delay), σ0))
    (henum : main_enumerate lib sys title delay σ0 = some (true, (ctx, σ2))) :
    (∃ (before : List Event) (blocks : List (List Event)),
      events (main lib sys argv0 args).2 = before ++ blocks.flatten ∧
      closes before = [] ∧
      BlocksAt (KillBlockAt sys) before.length ctx.windows blocks) ∧
    closes (events (main lib sys argv0 args).2) = ctx.windows.map window_info.process ∧
    ((ctx.windows.map window_info.process).Nodup →
      ∀ w ∈ ctx.windows, (closes (events (main lib sys argv0 args).2)).count w.process = 1) := by
  obtain ⟨vb, pb, kb, -, hev, hv, hp, hk⟩ :=
    main_events lib sys argv0 args title delay ctx σ0 σ2 hargs henum
  have hb : closes (Event.now sys.start :: Event.enumWindows ::
      (vb.flatten ++ (pb.flatten ++ [Event.flush, Event.sleepUntil ctx.until_]))) = [] := by
    simp [closes, closes_append, (visit_quiet _ _ hv).2.1, (intent_quiet delay _ _ hp).2.1]
  have hlen : (Event.now sys.start :: Event.enumWindows ::
      (vb.flatten ++ (pb.flatten ++ [Event.flush, Event.sleepUntil ctx.until_]))).length =
      vb.flatten.length + pb.flatten.length + 4 := by
    simp only [List.length_cons, List.length_append, List.length_nil]
    omega
  have hsplit : events (main lib sys argv0 args).2 =
      (Event.now sys.start :: Event.enumWindows ::
        (vb.flatten ++ (pb.flatten ++ [Event.flush, Event.sleepUntil ctx.until_]))) ++
      kb.flatten := by
    rw [hev]; simp
  have hall : closes (events (main lib sys argv0 args).2) =
      ctx.windows.map window_info.process := by
    rw [hsplit, closes_append, hb, (kill_handles sys _ _ _ hk).2, List.nil_append]
  refine ⟨⟨_, kb, hsplit, hb, by rw [hlen]; exact hk⟩, hall, ?_⟩
  intro hnd w hw
  rw [hall]
  exact List.count_eq_one_of_mem hnd (List.mem_map_of_mem _ hw)

/-- Claim C2 on the desktop where the Calculator cannot be terminated, with the
argument Calc: two windows are captured, the termination of the first fails and
that of the second succeeds, and each of the handles 5001 and 5002 is closed
exactly once. -/
theorem C2_each_handle_closed_once_witness :
    main_args stubbornDesk "autokill" ["Calc"] (World.init stubbornDesk) =
      (some ("Calc", 0), World.init stubbornDesk) ∧
    main_enumerate literalRegex stubbornDesk "Calc" 0 (World.init stubbornDesk) =
      some (true, (stubbornCtx, stubbornEnumerated)) ∧
    Event.terminateProcess 5001 false ∈
      events (main literalRegex stubbornDesk "autokill" ["Calc"]).2 ∧
    Event.terminateProcess 5002 true ∈
      events (main literalRegex stubbornDesk "autokill" ["Calc"]).2 ∧
    closes (events (main literalRegex stubbornDesk "autokill" ["Calc"]).2) = [5001, 5002] ∧
    (stubbornCtx.windows.map window_info.process).Nodup ∧
    ∀ w ∈ stubbornCtx.windows,
      (closes (events (main literalRegex stubbornDesk "autokill" ["Calc"]).2)).count
        w.process = 1 :=
  ⟨by decide, by rfl, by decide, by decide,
    (C2_each_handle_closed_once literalRegex stubbornDesk "autokill" ["Calc"] "Calc" 0
      stubbornCtx (World.init stubbornDesk) stubbornEnumerated (by decide) (by rfl)).2.1,
    by decide,
    (C2_each_handle_closed_once literalRegex stubbornDesk "autokill" ["Calc"] "Calc" 0
      stubbornCtx (World.init stubbornDesk) stubbornEnumerated (by decide) (by rfl)).2.2
      (by decide)⟩

/-! ## Claim C6 -/

/-- Claim C6: in a run that reaches the terminate phase the exit code is 0 and
the actions after the sleep are one block per captured window, in collection
order.  In each block TerminateProcess is called exactly once, on the window's
handle, and gets the answer the system gives to that call; what the block prints
is the window's one outcome report: the killed line after a success, and after a
failure the cannot-kill text with the original title followed by the error text
the system gives.
A failure does not end the sequence of blocks.  No termination is attempted
outside the blocks, so over the whole run the attempted handles are those of the
captured windows, once each and in order, whatever the individual answers. -/
theorem C6_one_attempt_one_report {R : Type} (lib : RegexLib R) (sys : System)
    (argv0 : String) (args : List String) (title : String) (delay : Int) (ctx : context R)
    (σ0 σ2 : World)
    (hargs : main_args sys argv0 args (World.init sys) = (some (title, delay), σ0))
    (henum : main_enumerate lib sys title delay σ0 = some (true, (ctx, σ2))) :
    (main lib sys argv0 args).1 = Status.exited 0 ∧
    (∃ (before : List Event) (blocks : List (List Event)),
      events (main lib sys argv0 args).2 = before ++ blocks.flatten ∧
      attempts before = [] ∧
      BlocksAt (KillBlockAt sys) before.length ctx.windows blocks ∧
      BlocksAt (fun k w b => attempts b = [w.process] ∧
        Event.terminateProcess w.process (sys.TerminateProcess (k + 1) w.process) ∈ b ∧
        (sys.TerminateProcess (k + 1) w.process = true →
          stdout b = killedLine w (String.mk (GetWindowText sys k w.window 256))) ∧
        (sys.TerminateProcess (k + 1) w.process = false →
          stdout b = "cannot kill \"" ++ w.title ++ "\": " ++ (errorReport sys (k + 3)).2))
        before.length ctx.windows blocks) ∧
    attempts (events (main lib sys argv0 args).2) = ctx.windows.map window_info.process := by
  obtain ⟨vb, pb, kb, hst, hev, hv, hp, hk⟩ :=
    main_events lib sys argv0 args title delay ctx σ0 σ2 hargs henum
  have hb : attempts (Event.now sys.start :: Event.enumWindows ::
      (vb.flatten ++ (pb.flatten ++ [Event.flush, Event.sleepUntil ctx.until_]))) = [] := by
    simp [attempts, attempts_append, (visit_quiet _ _ hv).1, (intent_quiet delay _ _ hp).1]
  have hlen : (Event.now sys.start :: Event.enumWindows ::
      (vb.flatten ++ (pb.flatten ++ [Event.flush, Event.sleepUntil ctx.until_]))).length =
      vb.flatten.length + pb.flatten.length + 4 := by
    simp only [List.length_cons, List.length_append, List.length_nil]
    omega
  have hsplit : events (main lib sys argv0 args).2 =
      (Event.now sys.start :: Event.enumWindows ::
        (vb.flatten ++ (pb.flatten ++ [Event.flush, Event.sleepUntil ctx.until_]))) ++
      kb.flatten := by
    rw [hev]; simp
  refine ⟨hst, ⟨_, kb, hsplit, hb, by rw [hlen]; exact hk, ?_⟩, ?_⟩
  · rw [hlen]
    refine blocksAt_imp _ _ ?_ _ _ _ hk
    intro k w b hkb
    refine ⟨kill_attempts sys k w b hkb, ?_, kill_stdout sys k w b hkb⟩
    obtain ⟨rest, hbe, -, -⟩ := hkb
    rw [hbe]
    simp
  · rw [hsplit, attempts_append, hb, (kill_handles sys _ _ _ hk).1, List.nil_append]

/-- Claim C6 on the desktop where the Calculator cannot be terminated, with the
argument Calc: the termination of the first captured window fails and is
reported with its title, the second window is still terminated and reported,
each handle is attempted once and the exit code is 0. -/
theorem C6_one_attempt_one_report_witness :
    main_args stubbornDesk "autokill" ["Calc"] (World.init stubbornDesk) =
      (some ("Calc", 0), World.init stubbornDesk) ∧
    main_enumerate literalRegex stubbornDesk "Calc" 0 (World.init stubbornDesk) =
      some (true, (stubbornCtx, stubbornEnumerated)) ∧
    (main literalRegex stubbornDesk "autokill" ["Calc"]).1 = Status.exited 0 ∧
    attempts (events (main literalRegex stubbornDesk "autokill" ["Calc"]).2) = [5001, 5002] ∧
    Event.terminateProcess 5001 false ∈
      events (main literalRegex stubbornDesk "autokill" ["Calc"]).2 ∧
    stdout (events (main literalRegex stubbornDesk "autokill" ["Calc"]).2) =
      "killing \"Calculator\"\nkilling \"Calc Notes\"\n" ++
      "cannot kill \"Calculator\": Access is denied.\r\nkilled \"Calc Notes\"\n" :=
  ⟨by decide, by rfl,
    (C6_one_attempt_one_report literalRegex stubbornDesk "autokill" ["Calc"] "Calc" 0
      stubbornCtx (World.init stubbornDesk) stubbornEnumerated (by decide) (by rfl)).1,
    (C6_one_attempt_one_report literalRegex stubbornDesk "autokill" ["Calc"] "Calc" 0
      stubbornCtx (World.init stubbornDesk) stubbornEnumerated (by decide) (by rfl)).2.2,
    by decide, by decide⟩

/-! ## Claim C7 -/

/-- Claim C7: when the termination of a captured window with capture-time title T
succeeds, the lambda re-reads the title, calls TerminateProcess and writes one
line: killed "T2"(previously "T") when the re-read gave a title T2 other than T,
and killed "T" when the re-read gave T again or gave no title. -/
theorem C7_killed_line (sys : System) (w : window_info) (σ : World)
    (hok : sys.TerminateProcess (getTitle sys w.window σ).2.step w.process = true) :
    (∃ text, events (getTitle sys w.window σ).2 =
      events σ ++ [Event.getWindowText w.window text]) ∧
    (∀ t, (getTitle sys w.window σ).1 = some t → t ≠ w.title →
      events (killAndReport sys w σ) = events (getTitle sys w.window σ).2 ++
        [Event.terminateProcess w.process true,
         Event.write ("killed \"" ++ t ++ "\"(previously \"" ++ w.title ++ "\")\n")]) ∧
    ((getTitle sys w.window σ).1 = some w.title ∨ (getTitle sys w.window σ).1 = none →
      events (killAndReport sys w σ) = events (getTitle sys w.window σ).2 ++
        [Event.terminateProcess w.process true,
         Event.write ("killed \"" ++ w.title ++ "\"\n")]) := by
  obtain ⟨text, hf, -⟩ := getTitle_follows sys w.window σ
  refine ⟨⟨text, by simpa using events_of_follows hf⟩, ?_, ?_⟩
  · intro t ht hne
    rcases hgt : getTitle sys w.window σ with ⟨newtitle, σ1⟩
    rw [hgt] at ht hok
    simp only at ht hok
    subst ht
    simp [killAndReport, hgt, hok, hne, events, World.act]
  · intro h
    rcases hgt : getTitle sys w.window σ with ⟨newtitle, σ1⟩
    rw [hgt] at h hok
    simp only at h hok
    rcases h with h | h <;> subst h <;> simp [killAndReport, hgt, hok, events, World.act]

/-- Claim C7 at T = Calculator and a re-read giving Calculator (closing). -/
theorem C7_killed_line_witness :
    desk.TerminateProcess (getTitle desk calculator.window deskLate).2.step
      calculator.process = true ∧
    (getTitle desk calculator.window deskLate).1 = some "Calculator (closing)" ∧
    events (killAndReport desk calculator deskLate) =
      events (getTitle desk calculator.window deskLate).2 ++
        [Event.terminateProcess 5001 true,
         Event.write "killed \"Calculator (closing)\"(previously \"Calculator\")\n"] :=
  ⟨by decide, by decide,
    (C7_killed_line desk calculator deskLate (by decide)).2.1 "Calculator (closing)"
      (by decide) (by decide)⟩

/-! ## Claim C8 -/

/-- Claim C8: in a run whose enumeration succeeds, nothing is written and nothing
is terminated up to the end of the enumeration; then comes one block of writes per
captured window, in collection order, printing that window's report-of-intent
line (with in N seconds exactly when the delay N is positive), so standard output
up to the flush is the captured windows' lines one after the other; the flush, the
sleep and every termination attempt come after these blocks; the exit code is 0,
and when no window was captured the run prints nothing at all. -/
theorem C8_report_of_intent {R : Type} (lib : RegexLib R) (sys : System)
    (argv0 : String) (args : List String) (title : String) (delay : Int) (ctx : context R)
    (σ0 σ2 : World)
    (hargs : main_args sys argv0 args (World.init sys) = (some (title, delay), σ0))
    (henum : main_enumerate lib sys title delay σ0 = some (true, (ctx, σ2))) :
    (∃ (before : List Event) (blocks : List (List Event)) (later : List Event),
      events (main lib sys argv0 args).2 =
        before ++ blocks.flatten ++ Event.flush :: Event.sleepUntil ctx.until_ :: later ∧
      stdout before = "" ∧
      attempts (before ++ blocks.flatten) = [] ∧
      sleeps (before ++ blocks.flatten) = [] ∧
      List.Forall₂ (IntentBlock delay) ctx.windows blocks ∧
      stdout (before ++ blocks.flatten) =
        concatLines (ctx.windows.map (fun w => intentLine delay w.title))) ∧
    (∀ w ∈ ctx.windows, (0 < delay → intentLine delay w.title =
        "killing \"" ++ w.title ++ "\" in " ++ toString delay ++ " seconds\n") ∧
      (delay = 0 → intentLine delay w.title = "killing \"" ++ w.title ++ "\"\n")) ∧
    (main lib sys argv0 args).1 = Status.exited 0 ∧
    (ctx.windows = [] → stdout (events (main lib sys argv0 args).2) = "") := by
  obtain ⟨vb, pb, kb, hst, hev, hv, hp, hk⟩ :=
    main_events lib sys argv0 args title delay ctx σ0 σ2 hargs henum
  have hvq := visit_quiet _ _ hv
  have hpq := intent_quiet delay _ _ hp
  have hout := intent_stdout delay _ _ hp
  refine ⟨⟨Event.now sys.start :: Event.enumWindows :: vb.flatten, pb, kb.flatten, ?_, ?_, ?_,
    ?_, hp, ?_⟩, ?_, hst, ?_⟩
  · rw [hev]; simp
  · simp [stdout, hvq.2.2.1]
  · simp [attempts, attempts_append, hvq.1, hpq.1]
  · simp [sleeps, sleeps_append, hvq.2.2.2, hpq.2.2]
  · simp [stdout, stdout_append, hvq.2.2.1, hout]
  · intro w _
    constructor
    · intro hd
      simp [intentLine, hd]
    · intro hd
      simp [intentLine, hd]
  · intro hnil
    have hk2 := blocksAt_forall₂ (KillBlockAt sys) _ _ _ hk
    rw [hnil] at hp hk2
    cases hp
    cases hk2
    rw [hev]
    simp [stdout, stdout_append, hvq.2.2.1]

/-- Claim C8 with the Calculator window alone and the arguments Calc and 2:
what is printed before the flush and the sleep, with no termination attempt in
between, is the line killing "Calculator" in 2 seconds. -/
theorem C8_report_of_intent_witness :
    main_args soloDesk "autokill" ["Calc", "2"] (World.init soloDesk) =
      (some ("Calc", 2), World.init soloDesk) ∧
    main_enumerate literalRegex soloDesk "Calc" 2 (World.init soloDesk) =
      some (true, (deskCtx, soloEnumerated)) ∧
    ∃ (printed : List Event) (later : List Event),
      events (main literalRegex soloDesk "autokill" ["Calc", "2"]).2 =
        printed ++ Event.flush :: Event.sleepUntil 120 :: later ∧
      attempts printed = [] ∧ sleeps printed = [] ∧
      stdout printed = "killing \"Calculator\" in 2 seconds\n" := by
  refine ⟨by decide, by rfl, ?_⟩
  obtain ⟨⟨before, blocks, later, h1, -, h3, h4, -, h6⟩, -, -, -⟩ :=
    C8_report_of_intent literalRegex soloDesk "autokill" ["Calc", "2"] "Calc" 2 deskCtx
      (World.init soloDesk) soloEnumerated (by decide) (by rfl)
  exact ⟨before ++ blocks.flatten, later, h1, h3, h4, h6.trans (by decide)⟩

/-! ## Claim C3 -/

/-- Claim C3 (defect in the code): on the desk, with pattern Calc, the visitor
opens the process of the Notepad window although its title does not match, and
that handle, 5002, is never closed: the run ends with exit code 0 and the
handle still open.  On the desk whose enumeration fails after visiting the
Calculator window the run ends with exit code 1 and the handle 5001 still
open. -/
theorem C3_unreleased_handles :
    literalRegex.regex_search "Notepad" ['C', 'a', 'l', 'c'] = false ∧
    Event.openProcess 4002 5002 ∈ events (main literalRegex desk "autokill" ["Calc"]).2 ∧
    (main literalRegex desk "autokill" ["Calc"]).1 = Status.exited 0 ∧
    unreleased (events (main literalRegex desk "autokill" ["Calc"]).2) = [5002] ∧
    (main literalRegex failingDesk "autokill" ["Calc"]).1 = Status.exited 1 ∧
    unreleased (events (main literalRegex failingDesk "autokill" ["Calc"]).2) = [5001] := by
  decide

/-! ## Claim C4 -/

/-- Claim C5 as stated fails: the argument -3 passes the validation and the
delay is -3 seconds, so the deadline lies three seconds before the clock value
at which it is computed. -/
theorem C5_negative_delay_accepted :
    main_args desk "autokill" ["Calc", "-3"] (World.init desk) =
      (some ("Calc", -3), World.init desk) ∧
    sleeps (events (main literalRegex desk "autokill" ["Calc", "-3"]).2) = [70] ∧
    desk.start = 100 := by
  decide

/-- Claim C5, amended: when the arguments are accepted the delay is 0 if
delay-seconds is omitted, and otherwise it is what atoi returns for the argument,
which is non-zero unless the argument is the string 0.  When the integer written
at the start of the argument fits an int, the delay is that integer, and it is
negative only if the first character after leading white space is a minus sign;
when it does not fit, atoi is undefined and nothing is said about the delay.  An
argument that is the decimal numeral of a natural number within the range of int
is accepted with that number as delay. -/
theorem C5_effective_delay (sys : System) (argv0 : String) (args : List String)
    (σ σ1 : World) (title : String) (delay : Int)
    (h : main_args sys argv0 args σ = (some (title, delay), σ1)) :
    ((args = [title] ∧ delay = 0) ∨
      ∃ secs, args = [title, secs] ∧ delay = atoi sys secs ∧ (delay ≠ 0 ∨ secs = "0") ∧
        (INT_MIN ≤ writtenValue secs → writtenValue secs ≤ INT_MAX →
          delay = writtenValue secs ∧
          ((secs.data.dropWhile isspace).head? ≠ some '-' → 0 ≤ delay))) ∧
    (∀ n : Nat, (n : Int) ≤ INT_MAX →
      main_args sys argv0 [title, toString n] σ = (some (title, (n : Int)), σ)) := by
  constructor
  · rcases (main_args_some sys argv0 args σ σ1 title delay h).2 with h1 | ⟨secs, h1, h2, h3⟩
    · exact Or.inl h1
    · refine Or.inr ⟨secs, h1, h2, h3, ?_⟩
      intro hlo hhi
      have hv : delay = writtenValue secs := by
        rw [h2]; exact atoi_of_range sys secs ⟨hlo, hhi⟩
      refine ⟨hv, ?_⟩
      rw [hv]
      exact (writtenValue_sign secs).1
  · intro n hn
    rw [main_args_pair, atoi_toString sys n hn]
    by_cases h0 : n = 0
    · subst h0
      simp
      rfl
    · have : ¬ ((n : Int) = 0 ∧ toString n ≠ "0") := by
        rintro ⟨hz, -⟩
        exact h0 (by exact_mod_cast hz)
      rw [if_neg this]

/-- Claim C5, amended, at the arguments Calc and 2; and, on a system whose atoi
wraps around, the numeral 2147483648, which does not fit an int, is accepted
with a negative delay. -/
theorem C5_effective_delay_witness :
    main_args desk "autokill" ["Calc", "2"] (World.init desk) =
      (some ("Calc", 2), World.init desk) ∧
    writtenValue "2" = 2 ∧
    ((["Calc", "2"] = ["Calc"] ∧ (2 : Int) = 0) ∨
      ∃ secs, ["Calc", "2"] = ["Calc", secs] ∧ (2 : Int) = atoi desk secs ∧
        ((2 : Int) ≠ 0 ∨ secs = "0") ∧
        (INT_MIN ≤ writtenValue secs → writtenValue secs ≤ INT_MAX →
          (2 : Int) = writtenValue secs ∧
          ((secs.data.dropWhile isspace).head? ≠ some '-' → (0 : Int) ≤ 2))) ∧
    main_args desk "autokill" ["Calc", "2147483648"] (World.init desk) =
      (some ("Calc", -2147483648), World.init desk) :=
  ⟨by decide, by decide,
    (C5_effective_delay desk "autokill" ["Calc", "2"] (World.init desk) (World.init desk)
      "Calc" 2 (by decide)).1,
    by decide⟩

/-! ## Claim C9 -/

/-- Claim C9 as stated fails: the pattern made of one opening parenthesis does
not compile, and the run then ends by the uncaught std::regex_error, not with
exit code 1, having written nothing, in particular no usage text. -/
theorem C9_invalid_pattern_uncaught :
    literalRegex.compile "(" = none ∧
    (main literalRegex desk "autokill" ["("]).1 = Status.uncaught_regex_error ∧
    (main literalRegex desk "autokill" ["("]).1 ≠ Status.exited 1 ∧
    stdout (events (main literalRegex desk "autokill" ["("]).2) = "" := by
  decide

/-- Claim C9, amended: when the argument count and the delay are accepted and
the title pattern does not compile, the run ends by the uncaught
std::regex_error with the world untouched: nothing is written, no window is
enumerated and no process is terminated. -/
theorem C9_invalid_pattern_no_action {R : Type} (lib : RegexLib R) (sys : System)
    (argv0 : String) (args : List String) (title : String) (delay : Int) (σ0 : World)
    (hargs : main_args sys argv0 args (World.init sys) = (some (title, delay), σ0))
    (hbad : lib.compile title = none) :
    main lib sys argv0 args = (Status.uncaught_regex_error, World.init sys) ∧
    events (main lib sys argv0 args).2 = [] := by
  obtain ⟨hσ, -⟩ := main_args_some sys argv0 args _ _ title delay hargs
  subst hσ
  have hm : main lib sys argv0 args = (Status.uncaught_regex_error, World.init sys) := by
    simp [main, hargs, main_run, main_enumerate, hbad]
  exact ⟨hm, by rw [hm]; rfl⟩

/-- Claim C9, amended, at the pattern made of one opening parenthesis. -/
theorem C9_invalid_pattern_no_action_witness :
    main_args desk "autokill" ["(", "2"] (World.init desk) =
      (some ("(", 2), World.init desk) ∧
    literalRegex.compile "(" = none ∧
    main literalRegex desk "autokill" ["(", "2"] =
      (Status.uncaught_regex_error, World.init desk) :=
  ⟨by decide, by decide,
    (C9_invalid_pattern_no_action literalRegex desk "autokill" ["(", "2"] "(" 2
      (World.init desk) (by decide) (by decide)).1⟩

/-! ## Claim C10 -/

/-- Claim C10 as stated fails: on the desk with the slow enumeration and a delay
of 2 seconds (20 ticks) the deadline 120 is fixed at clock value 100, the report
line is written at 122 and the termination attempt is made at 128, less than 20
ticks after the report. -/
theorem C10_delay_not_counted_from_report :
    (main literalRegex slowDesk "autokill" ["Calc", "2"]).2.trace =
      [(100, Event.now 100), (101, Event.enumWindows),
       (116, Event.getWindowText 1 "Calculator"),
       (117, Event.getWindowThreadProcessId 1 4001),
       (118, Event.openProcess 4001 5001),
       (119, Event.getWindowText 2 "Notepad"),
       (120, Event.getWindowThreadProcessId 2 4002),
       (121, Event.openProcess 4002 5002),
       (122, Event.write "killing \"Calculator\""),
       (123, Event.write " in 2 seconds"),
       (124, Event.write "\n"),
       (125, Event.flush),
       (126, Event.sleepUntil 120),
       (127, Event.getWindowText 1 "Calculator (closing)"),
       (128, Event.terminateProcess 5001 true),
       (129, Event.write "killed \"Calculator (closing)\"(previously \"Calculator\")\n"),
       (130, Event.closeHandle 5001)] ∧
    slowDesk.ticksPerSecond = 10 ∧
    ¬ (122 + 2 * slowDesk.ticksPerSecond ≤ 128) := by
  decide

/-- Claim C10, amended: in a run that reaches the terminate phase with delay N
seconds, the deadline is the clock value read before the enumeration plus N
seconds; enumeration and reporting lie between that reading and the call of
sleep_until, with no termination attempt among them; every action after
sleep_until, so every termination attempt of the run, begins at least N seconds
after the clock value at which the deadline was computed; and when N is 0 or
less the deadline is not later than that clock value and sleep_until is an
ordinary action that does not wait. -/
theorem C10_deadline_counted_from_clock_reading {R : Type} (lib : RegexLib R) (sys : System)
    (argv0 : String) (args : List String) (title : String) (delay : Int) (ctx : context R)
    (σ0 σ2 : World)
    (hargs : main_args sys argv0 args (World.init sys) = (some (title, delay), σ0))
    (henum : main_enumerate lib sys title delay σ0 = some (true, (ctx, σ2))) :
    ctx.until_ = (sys.start : Int) + delay * sys.ticksPerSecond ∧
    (∃ (early late : List (Nat × Event)),
      (main lib sys argv0 args).2.trace =
        (sys.start, Event.now sys.start) ::
          (early ++ ((main_report sys delay ctx σ2).clock, Event.sleepUntil ctx.until_) :: late) ∧
      attempts (early.map Prod.snd) = [] ∧
      (∀ p ∈ early, sys.start ≤ p.1 ∧ p.1 ≤ (main_report sys delay ctx σ2).clock) ∧
      (∀ p ∈ late, (sys.start : Int) + delay * sys.ticksPerSecond ≤ (p.1 : Int) ∧
        (main_report sys delay ctx σ2).clock ≤ p.1)) ∧
    (∀ t h ok, (t, Event.terminateProcess h ok) ∈ (main lib sys argv0 args).2.trace →
      (sys.start : Int) + delay * sys.ticksPerSecond ≤ (t : Int)) ∧
    (delay ≤ 0 → ctx.until_ ≤ (sys.start : Int) ∧
      sleep_until sys ctx.until_ (main_report sys delay ctx σ2) =
        (main_report sys delay ctx σ2).act sys (Event.sleepUntil ctx.until_)) := by
  obtain ⟨pattern, vs, ps, ks, c1, c2, c3, -, -, hu, -, htr, hv, -, hp, -, hb1, hb2, hc3, h01,
    h12, h23⟩ := main_trace lib sys argv0 args title delay ctx σ0 σ2 hargs henum
  subst hc3
  have hearly : attempts (List.map Prod.snd
      ((c1, Event.enumWindows) :: (vs.flatten ++ (ps.flatten ++ [(c2, Event.flush)])))) = [] := by
    simp [attempts, attempts_append, List.map_flatten, (visit_quiet _ _ hv).1,
      (intent_quiet delay _ _ hp).1]
  have hlate : ∀ p ∈ ks.flatten, (sys.start : Int) + delay * sys.ticksPerSecond ≤ (p.1 : Int) ∧
      (main_report sys delay ctx σ2).clock ≤ p.1 := by
    intro p hp
    rw [← hu]
    exact hb2 p hp
  refine ⟨hu, ⟨(c1, Event.enumWindows) :: (vs.flatten ++ (ps.flatten ++ [(c2, Event.flush)])),
    ks.flatten, ?_, hearly, ?_, hlate⟩, ?_, ?_⟩
  · rw [htr]; simp
  · intro p hp
    simp only [List.mem_cons, List.mem_append, List.not_mem_nil, or_false] at hp
    rcases hp with hp | hp | hp | hp
    · subst hp; exact ⟨h01, by omega⟩
    · exact hb1 p (List.mem_append_left _ hp)
    · exact hb1 p (List.mem_append_right _ hp)
    · subst hp; exact ⟨by omega, h23⟩
  · intro t h ok hm
    rw [htr] at hm
    have hm2 : (t, Event.terminateProcess h ok) ∈
        (c1, Event.enumWindows) :: (vs.flatten ++ (ps.flatten ++ [(c2, Event.flush)])) ∨
        (t, Event.terminateProcess h ok) ∈ ks.flatten := by
      simp only [List.mem_cons, List.mem_append, List.mem_singleton, Prod.mk.injEq] at hm ⊢
      simp only [reduceCtorEq, and_false, false_or, or_false] at hm ⊢
      tauto
    rcases hm2 with hm2 | hm2
    · have := mem_attempts h ok _ (List.mem_map_of_mem Prod.snd hm2)
      rw [hearly] at this
      cases this
    · exact (hlate _ hm2).1
  · intro hd
    have hle : ctx.until_ ≤ (sys.start : Int) := by
      rw [hu]
      have : delay * (sys.ticksPerSecond : Int) ≤ 0 :=
        Int.mul_nonpos_of_nonpos_of_nonneg hd (Int.ofNat_nonneg _)
      omega
    refine ⟨hle, sleep_until_past sys _ _ ?_⟩
    have : (sys.start : Int) ≤ ((main_report sys delay ctx σ2).clock : Int) := by
      exact_mod_cast (le_trans h01 (le_trans h12 h23))
    omega

/-- Claim C10, amended, on the desk with the arguments Calc and 2: every
termination attempt begins at clock value 120 or later, the deadline having
been computed at 100. -/
theorem C10_deadline_counted_from_clock_reading_witness :
    main_args desk "autokill" ["Calc", "2"] (World.init desk) =
      (some ("Calc", 2), World.init desk) ∧
    main_enumerate literalRegex desk "Calc" 2 (World.init desk) =
      some (true, (deskCtx, deskEnumerated)) ∧
    (desk.start : Int) + 2 * desk.ticksPerSecond = 120 ∧
    ∀ t h ok, (t, Event.terminateProcess h ok) ∈
        (main literalRegex desk "autokill" ["Calc", "2"]).2.trace →
      (desk.start : Int) + 2 * desk.ticksPerSecond ≤ (t : Int) :=
  ⟨by decide, by rfl, by decide,
    (C10_deadline_counted_from_clock_reading literalRegex desk "autokill" ["Calc", "2"] "Calc"
      2 deskCtx (World.init desk) deskEnumerated (by decide) (by rfl)).2.2.1⟩

end Autokill
